import Mathlib

/-!
Verification of the legacy RT REST response parser (`RTParser` in
`rt_client.py`) and of the custom-field name-to-id cache
(`CustomFieldManager.get_id` in `rt_record_manager.py`).

The Python code is shallowly embedded: strings are Lean `String`s, the
`OrderedDict` is an insertion-ordered association list, and fallible code
returns `Res`, whose `raised` constructor records which Python exception
class escapes (`IndexError` from `logic_lines[-1]` on an empty list,
`KeyError` from `data_dict[key]` for a missing key).  The regular
expressions `HEADER`, `COMMENT` and `SECTION` are embedded by executable
Boolean matchers that follow Python `re` semantics (anchored `re.match`
for the first two, multiline `re.split` for the third).
-/

/-- Python exceptions that the embedded code can raise. -/
inductive PyEx where
  | indexError
  | keyError
deriving DecidableEq, Repr

/-- Result of running a fallible piece of Python code: either a value or an
uncaught exception. -/
inductive Res (α : Type) where
  | ok (val : α)
  | raised (e : PyEx)
deriving DecidableEq, Repr

/-- Run `f` over a list, stopping at the first exception.  This is the
behaviour of a Python `for` loop or list comprehension whose body may raise. -/
def mapRes {α β : Type} (f : α → Res β) : List α → Res (List β)
  | [] => .ok []
  | a :: l =>
    match f a with
    | .raised e => .raised e
    | .ok b =>
      match mapRes f l with
      | .raised e => .raised e
      | .ok bs => .ok (b :: bs)

/-- Characters of Python's whitespace class `\s` (and `str.isspace` /
`int()` stripping) in the ASCII range; the exotic Unicode space code points
do not occur in the protocol format. -/
def isPySpace (c : Char) : Bool :=
  c = ' ' || c = '\t' || c = '\n' || c = '\r' || c = '\x0b' || c = '\x0c'

/-- Line boundaries recognised by Python's `str.splitlines()`. -/
def isLineBreakChar (c : Char) : Bool :=
  c = '\n' || c = '\r' || c = '\x0b' || c = '\x0c' ||
  c = '\x1c' || c = '\x1d' || c = '\x1e' || c = '\x85' ||
  c = ' ' || c = ' '

/-- Python `s.strip(' ')` on the character list: remove space characters
(U+0020 only, not tabs or newlines) from both ends. -/
def stripSpacesL (cs : List Char) : List Char :=
  ((cs.dropWhile (· == ' ')).reverse.dropWhile (· == ' ')).reverse

/-- Python `s.strip(' ')`. -/
def stripSpaces (s : String) : String :=
  ⟨stripSpacesL s.data⟩

/-- Scanner for `str.splitlines()`: `acc` holds the reversed characters of
the current line; `\r\n` counts as a single boundary; a terminal boundary
produces no trailing empty line. -/
def splitLinesAux : List Char → List Char → List (List Char)
  | [], acc => [acc.reverse]
  | '\r' :: '\n' :: rest, acc =>
    acc.reverse :: (if rest.isEmpty then [] else splitLinesAux rest [])
  | c :: rest, acc =>
    if isLineBreakChar c then
      acc.reverse :: (if rest.isEmpty then [] else splitLinesAux rest [])
    else splitLinesAux rest (c :: acc)

/-- Python `s.splitlines()`. -/
def pySplitLines (s : String) : List String :=
  if s.data.isEmpty then [] else (splitLinesAux s.data []).map fun cs => ⟨cs⟩

/-- Python `s.split(' ')` with an explicit single-space separator: splits at
every space and keeps empty pieces. -/
def splitOnSpace : List Char → List (List Char)
  | [] => [[]]
  | ' ' :: rest => [] :: splitOnSpace rest
  | c :: rest =>
    match splitOnSpace rest with
    | [] => [[c]]
    | h :: t => (c :: h) :: t

/-- Validator for the digit part of a Python decimal `int()` literal:
nonempty, decimal digits with single underscores allowed strictly between
digits. -/
def digitsCore : List Char → Bool
  | [] => false
  | [c] => c.isDigit
  | c :: '_' :: rest => c.isDigit && digitsCore rest
  | c :: rest => c.isDigit && digitsCore rest

/-- Numeric value of a list of decimal digits. -/
def natOfDigits (cs : List Char) : Nat :=
  cs.foldl (fun a c => a * 10 + (c.toNat - '0'.toNat)) 0

/-- Python `int(s)` on a decimal string: surrounding whitespace is stripped,
an optional sign is allowed, and the digits may contain single underscores;
`none` models the `ValueError` that any other shape raises. -/
def pyInt (s : String) : Option Int :=
  let t := ((s.data.dropWhile isPySpace).reverse.dropWhile isPySpace).reverse
  match t with
  | '+' :: rest =>
    if digitsCore rest then some ((natOfDigits (rest.filter (·.isDigit)) : Int)) else none
  | '-' :: rest =>
    if digitsCore rest then some (-(natOfDigits (rest.filter (·.isDigit)) : Int)) else none
  | _ =>
    if digitsCore t then some ((natOfDigits (t.filter (·.isDigit)) : Int)) else none

/-- Lookup in a Python dict modelled as an association list (keys unique). -/
def dget {β : Type} : List (String × β) → String → Option β
  | [], _ => none
  | (k', v') :: t, k => if k' == k then some v' else dget t k

/-- Python `d[k] = v` on an `OrderedDict`: an existing key keeps its
position and gets the new value; a new key is appended at the end. -/
def dset {β : Type} : List (String × β) → String → β → List (String × β)
  | [], k, v => [(k, v)]
  | (k', v') :: t, k, v => if k' == k then (k, v) :: t else (k', v') :: dset t k v

namespace RTParser

/-- One decoded section: the ordered field-name-to-value mapping that
`RTParser.decode` builds in an `OrderedDict`. -/
abbrev Record := List (String × String)

/-- Matcher for the tail of `HEADER = re.compile(r'^RT/(?P<v>.+)\s+(?P<s>(?P<i>\d+).+)')`
after the literal `RT/`: there must be a nonempty run of non-newline
characters, then a nonempty run of whitespace, then a digit followed by at
least one more non-newline character.  The bounded searches over `p` and `q`
realise the regex engine's backtracking. -/
def headerTail (r : List Char) : Bool :=
  (List.range r.length).any fun p =>
    decide (1 ≤ p) &&
    ((List.range r.length).any fun q =>
      decide (p < q) && decide (q + 1 < r.length) &&
      ((r.take p).all fun c => !(c == '\n')) &&
      (((r.drop p).take (q - p)).all isPySpace) &&
      (r.getD q 'x').isDigit &&
      !((r.getD (q + 1) '\n') == '\n'))

/-- `HEADER.match(line)` as a Boolean: the protocol token is the literal
`RT`. -/
def headerMatch (line : String) : Bool :=
  match line.data with
  | 'R' :: 'T' :: '/' :: r => headerTail r
  | _ => false

/-- Matcher for the tail of `COMMENT = re.compile(r'^#\s+.+$')` after the
literal `#`: a nonempty whitespace run, then a nonempty run of non-newline
characters reaching the end of the string or stopping just before one
final newline (Python `$` without `re.M`). -/
def commentTail (u : List Char) : Bool :=
  (List.range (u.length + 1)).any fun p =>
    decide (1 ≤ p) &&
    ((u.take p).all isPySpace) &&
    ((!(u.drop p).isEmpty && (u.drop p).all fun c => !(c == '\n')) ||
     ((u.drop p).getLast? == some '\n' && !((u.drop p).dropLast).isEmpty &&
      ((u.drop p).dropLast).all fun c => !(c == '\n')))

/-- `COMMENT.match(line)` as a Boolean. -/
def commentMatch (line : String) : Bool :=
  match line.data with
  | '#' :: u => commentTail u
  | _ => false

/-- Scanner for `SECTION.split(body)` where
`SECTION = re.compile(r'^--', re.M | re.U)`: a `--` occurring at the start
of the text or directly after a `'\n'` (the only positions where `^`
matches under `re.M`) ends the current piece and is consumed; all other
characters are kept.  `re.split` always yields one more piece than there
are matches. -/
def splitSectionsAux : List Char → List Char → Bool → List (List Char)
  | [], acc, _ => [acc.reverse]
  | '-' :: '-' :: rest, acc, true => acc.reverse :: splitSectionsAux rest [] false
  | c :: rest, acc, _ => splitSectionsAux rest (c :: acc) (c = '\n')

/-- The section split performed by `RTParser.build`. -/
def splitSections (body : String) : List String :=
  (splitSectionsAux body.data [] true).map fun cs => ⟨cs⟩

/-- Count of `--` delimiters, with exactly the matching discipline of
`splitSectionsAux`. -/
def countDelimsAux : List Char → Bool → Nat
  | [], _ => 0
  | '-' :: '-' :: rest, true => countDelimsAux rest false + 1
  | c :: rest, _ => countDelimsAux rest (c = '\n')

/-- Number of `--` section-delimiter matches in `body`. -/
def countDelims (body : String) : Nat := countDelimsAux body.data true

/-- Loop body of `build_section` in `RTParser.build`: empty lines and
`HEADER` lines are skipped; a line whose first character is whitespace is
folded onto the last logical line (`logic_lines[-1]`, an `IndexError` when
no logical line exists yet); any other line is appended verbatim. -/
def buildLinesAux : List String → List String → Res (List String)
  | [], acc => .ok acc
  | l :: rest, acc =>
    if l.data.isEmpty || headerMatch l then buildLinesAux rest acc
    else if isPySpace (l.data.headD 'x') then
      match acc.getLast? with
      | none => .raised .indexError
      | some last => buildLinesAux rest (acc.dropLast ++ [last ++ "\n" ++ stripSpaces l])
    else buildLinesAux rest (acc ++ [l])

/-- `build_section(section)` from `RTParser.build`. -/
def buildSection (s : String) : Res (List String) :=
  buildLinesAux (pySplitLines s) []

/-- `RTParser.build(body)`: the logical lines of every section. -/
def build (body : String) : Res (List (List String)) :=
  mapRes buildSection (splitSections body)

/-- Test for `':' in line`. -/
def lineHasColon (l : String) : Bool := l.data.any (· == ':')

/-- Python `line.split(':', 1)` for a line that contains a colon: the part
before the first colon and everything after it. -/
def splitColon (l : String) : String × String :=
  (⟨l.data.takeWhile (· != ':')⟩, ⟨(l.data.dropWhile (· != ':')).tail⟩)

/-- Loop of `RTParser.decode`: `COMMENT` lines are skipped; a line with a
colon sets the current key and its stripped value; a line without a colon
appends its stripped content to the value of the current key
(`data_dict[key]`, a `KeyError` when `key` is still `None` or absent). -/
def decodeAux : List String → Option String → Record → Res Record
  | [], _, d => .ok d
  | l :: rest, key, d =>
    if commentMatch l then decodeAux rest key d
    else if lineHasColon l then
      let kv := splitColon l
      decodeAux rest (some kv.1) (dset d kv.1 (stripSpaces kv.2))
    else
      match key with
      | none => .raised .keyError
      | some k =>
        match dget d k with
        | none => .raised .keyError
        | some old => decodeAux rest key (dset d k (old ++ stripSpaces l))

/-- `RTParser.decode(lines)`. -/
def decode (lines : List String) : Res Record :=
  decodeAux lines none []

/-- `RTParser.parse(body)`: build the logical lines of every section, then
decode each section into a `Record`. -/
def parse (body : String) : Res (List Record) :=
  match build body with
  | .raised e => .raised e
  | .ok sections => mapRes decode sections

/-- `RTParser.parse_status_code(body)`: second space-separated token of the
first line, parsed as an integer; `none` models the `False` sentinel that
the bare `except` turns every failure into. -/
def parse_status_code (body : String) : Option Int :=
  match pySplitLines body with
  | [] => none
  | header :: _ =>
    match (splitOnSpace header.data).get? 1 with
    | none => none
    | some tok => pyInt ⟨tok⟩

/-- A section whose first physical line that is neither empty nor a
`HEADER` line starts with whitespace: exactly the inputs on which
`build_section` evaluates `logic_lines[-1]` with `logic_lines` empty. -/
def contBefore : List String → Bool
  | [] => false
  | l :: rest =>
    if l.data.isEmpty || headerMatch l then contBefore rest
    else isPySpace (l.data.headD 'x')

/-- Does the body begin with the two-dash delimiter? -/
def startsWithDashes (body : String) : Bool :=
  match body.data with
  | '-' :: '-' :: _ => true
  | _ => false

end RTParser

namespace CustomFieldManager

/-- A JSON scalar as the Python code sees it: `None`, a number, or a
string.  This is the type of the `id` field of a custom-field search
result. -/
inductive PyVal where
  | none
  | int (n : Int)
  | str (s : String)
deriving DecidableEq, Repr

/-- Python truthiness of a `PyVal`: `None`, `0` and `""` are falsy. -/
def truthy : PyVal → Bool
  | .none => false
  | .int n => !(n == 0)
  | .str s => !(s == "")

/-- The JSON reply to the custom-field search, reduced to the parts
`get_id` reads: `count`, and the `id` of each element of `items`. -/
structure SearchResp where
  count : Nat
  items : List PyVal
deriving DecidableEq, Repr

/-- The per-instance `customfield_cache` dictionary. -/
abbrev Cache := List (String × PyVal)

/-- The search branch of `get_id`: on `count != 0` the first item's id is
cached and returned (`items[0]` raises `IndexError` on an empty list),
otherwise `None` is returned and nothing is cached. -/
def get_id_search (cache : Cache) (name : String) (resp : SearchResp) :
    Res (PyVal × Cache) :=
  if resp.count ≠ 0 then
    match resp.items.head? with
    | none => .raised .indexError
    | some r => .ok (r, dset cache name r)
  else .ok (.none, cache)

/-- `CustomFieldManager.get_id(name)`.  The HTTP search this method
performs is abstracted as the explicit argument `resp`; the method returns
the cached value when `customfield_cache.get(name, None)` is truthy and
otherwise falls through to the search branch. -/
def get_id (cache : Cache) (name : String) (resp : SearchResp) :
    Res (PyVal × Cache) :=
  match dget cache name with
  | some v => if truthy v then .ok (v, cache) else get_id_search cache name resp
  | _ => get_id_search cache name resp

end CustomFieldManager

theorem mapRes_ok_length {α β : Type} (f : α → Res β) :
    ∀ (l : List α) (r : List β), mapRes f l = .ok r → r.length = l.length := by
  intro l
  induction l with
  | nil =>
    intro r h
    simp only [mapRes] at h
    cases h
    rfl
  | cons a t ih =>
    intro r h
    unfold mapRes at h
    cases hfa : f a with
    | raised e => rw [hfa] at h; exact absurd h (by simp)
    | ok b =>
      rw [hfa] at h
      cases hmt : mapRes f t with
      | raised e => rw [hmt] at h; exact absurd h (by simp)
      | ok bs =>
        rw [hmt] at h
        simp only [Res.ok.injEq] at h
        subst h
        simp [ih bs hmt]

theorem mapRes_raised_of_mem {α β : Type} (f : α → Res β) (c : PyEx)
    (hall : ∀ a e, f a = .raised e → e = c) :
    ∀ (l : List α), (∃ s ∈ l, ∃ e, f s = .raised e) → mapRes f l = .raised c := by
  intro l
  induction l with
  | nil =>
    rintro ⟨s, hs, _⟩
    exact absurd hs (List.not_mem_nil s)
  | cons a t ih =>
    rintro ⟨s, hs, e, hse⟩
    unfold mapRes
    cases hfa : f a with
    | raised e' => simp [hall a e' hfa]
    | ok b =>
      rcases List.mem_cons.mp hs with rfl | hst
      · rw [hfa] at hse; exact absurd hse (by simp)
      · rw [ih ⟨s, hst, e, hse⟩]

theorem dget_dset_self {β : Type} :
    ∀ (d : List (String × β)) (k : String) (v : β), dget (dset d k v) k = some v := by
  intro d k v
  induction d with
  | nil => simp [dset, dget]
  | cons p t ih =>
    obtain ⟨k', v'⟩ := p
    by_cases hk : (k' == k) = true
    · simp [dset, dget, hk]
    · simp [dset, dget, hk, ih]

namespace RTParser

theorem splitSectionsAux_length :
    ∀ (cs acc : List Char) (b : Bool),
    (splitSectionsAux cs acc b).length = countDelimsAux cs b + 1 := by
  intro cs acc b
  induction cs, acc, b using splitSectionsAux.induct with
  | case1 acc b => simp [splitSectionsAux, countDelimsAux]
  | _ => simp_all [splitSectionsAux, countDelimsAux]

theorem splitSections_length (body : String) :
    (splitSections body).length = countDelims body + 1 := by
  unfold splitSections countDelims
  rw [List.length_map]
  exact splitSectionsAux_length body.data [] true

theorem buildLinesAux_raised :
    ∀ (ls acc : List String) (e : PyEx),
    buildLinesAux ls acc = .raised e → e = .indexError := by
  intro ls
  induction ls with
  | nil => intro acc e h; exact absurd h (by simp [buildLinesAux])
  | cons l rest ih =>
    intro acc e h
    unfold buildLinesAux at h
    by_cases h1 : (l.data.isEmpty || headerMatch l) = true
    · rw [if_pos h1] at h; exact ih acc e h
    · rw [if_neg h1] at h
      by_cases h2 : isPySpace (l.data.headD 'x') = true
      · rw [if_pos h2] at h
        cases hl : acc.getLast? with
        | none => rw [hl] at h; cases h; rfl
        | some last => rw [hl] at h; exact ih _ e h
      · rw [if_neg h2] at h; exact ih _ e h

theorem buildSection_raised (s : String) (e : PyEx)
    (h : buildSection s = .raised e) : e = .indexError :=
  buildLinesAux_raised (pySplitLines s) [] e h

theorem contBefore_raised :
    ∀ ls : List String, contBefore ls = true → buildLinesAux ls [] = .raised .indexError := by
  intro ls
  induction ls with
  | nil => intro h; exact absurd h (by simp [contBefore])
  | cons l rest ih =>
    intro h
    unfold contBefore at h
    unfold buildLinesAux
    by_cases h1 : (l.data.isEmpty || headerMatch l) = true
    · rw [if_pos h1] at h ⊢; exact ih h
    · rw [if_neg h1] at h ⊢
      rw [if_pos h]
      rfl

theorem headerMatch_head (l : String) (h : headerMatch l = true) :
    l.data.headD 'x' = 'R' := by
  unfold headerMatch at h
  split at h
  · next r heq => simp [heq]
  · exact absurd h (by simp)

set_option maxHeartbeats 1600000 in
theorem splitLinesAux_newline (t acc : List Char) :
    splitLinesAux ('\n' :: t) acc =
      acc.reverse :: (if t.isEmpty then [] else splitLinesAux t []) := by
  rw [splitLinesAux.eq_3 acc '\n' t (by intro r2 hEq _; exact absurd hEq (by decide))]
  rw [if_pos (by decide)]

theorem splitLinesAux_cons (c : Char) (rest acc : List Char)
    (h : isLineBreakChar c = false) :
    splitLinesAux (c :: rest) acc = splitLinesAux rest (c :: acc) := by
  have hc : ∀ r2 : List Char, c = '\r' → rest = '\n' :: r2 → False := by
    intro r2 hEq _
    subst hEq
    exact absurd h (by decide)
  rw [splitLinesAux.eq_3 acc c rest hc, if_neg (by simp [h])]

theorem splitLinesAux_no_break :
    ∀ (cs acc : List Char), (∀ c ∈ cs, isLineBreakChar c = false) →
    splitLinesAux cs acc = [acc.reverse ++ cs] := by
  intro cs
  induction cs with
  | nil => intro acc _; simp [splitLinesAux]
  | cons c rest ih =>
    intro acc h
    rw [splitLinesAux_cons c rest acc (h c (by simp))]
    rw [ih (c :: acc) (fun d hd => h d (by simp [hd]))]
    simp

theorem splitLinesAux_append :
    ∀ (cs acc t : List Char), (∀ c ∈ cs, isLineBreakChar c = false) → t ≠ [] →
    splitLinesAux (cs ++ '\n' :: t) acc = (acc.reverse ++ cs) :: splitLinesAux t [] := by
  intro cs
  induction cs with
  | nil =>
    intro acc t _ ht
    rw [List.nil_append, splitLinesAux_newline]
    rw [if_neg (by simp [ht])]
    simp
  | cons c rest ih =>
    intro acc t h ht
    rw [List.cons_append, splitLinesAux_cons c _ _ (h c (by simp))]
    rw [ih (c :: acc) t (fun d hd => h d (by simp [hd])) ht]
    simp

theorem string_mk_data (s : String) : String.mk s.data = s := rfl

theorem pySplitLines_two (s t : String)
    (hs : ∀ c ∈ s.data, isLineBreakChar c = false)
    (ht : ∀ c ∈ t.data, isLineBreakChar c = false)
    (htne : t.data ≠ []) :
    pySplitLines (s ++ "\n" ++ t) = [s, t] := by
  have hdata : (s ++ "\n" ++ t).data = s.data ++ '\n' :: t.data := by
    simp [String.data_append]
  unfold pySplitLines
  rw [hdata]
  rw [if_neg (by simp)]
  rw [splitLinesAux_append s.data [] t.data hs htne]
  rw [splitLinesAux_no_break t.data [] ht]
  simp [string_mk_data]

set_option maxHeartbeats 1600000 in
theorem splitSectionsAux_step (c : Char) (rest acc : List Char) (b : Bool)
    (h : ∀ r2 : List Char, c = '-' → rest = '-' :: r2 → b = true → False) :
    splitSectionsAux (c :: rest) acc b =
      splitSectionsAux rest (c :: acc) (decide (c = '\n')) :=
  splitSectionsAux.eq_3 acc b c rest h

theorem splitSectionsAux_no_nl :
    ∀ (cs acc : List Char), (∀ c ∈ cs, c ≠ '\n') →
    splitSectionsAux cs acc false = [acc.reverse ++ cs] := by
  intro cs
  induction cs with
  | nil => intro acc _; simp [splitSectionsAux]
  | cons c rest ih =>
    intro acc h
    rw [splitSectionsAux_step c rest acc false (fun _ _ _ hb => by cases hb)]
    rw [decide_eq_false (h c (by simp))]
    rw [ih (c :: acc) (fun d hd => h d (by simp [hd]))]
    simp

theorem splitSections_no_nl (body : String) (h : ∀ c ∈ body.data, c ≠ '\n') :
    splitSections body =
      if startsWithDashes body then ["", ⟨body.data.drop 2⟩] else [body] := by
  unfold splitSections startsWithDashes
  cases hcs : body.data with
  | nil =>
    have hb : body = "" := by rw [← string_mk_data body, hcs]
    subst hb
    decide
  | cons c rest =>
    have hbody : body = ⟨c :: rest⟩ := by rw [← string_mk_data body, hcs]
    cases rest with
    | nil =>
      rw [splitSectionsAux_step c [] [] true (by intro r2 _ hr _; cases hr)]
      rw [decide_eq_false (h c (by rw [hcs]; exact List.mem_cons_self c []))]
      rw [splitSectionsAux_no_nl [] [c] (by intro d hd; cases hd)]
      rw [hbody]
      simp
    | cons c2 r2 =>
      by_cases hdash : c = '-' ∧ c2 = '-'
      · obtain ⟨rfl, rfl⟩ := hdash
        rw [splitSectionsAux.eq_2]
        rw [splitSectionsAux_no_nl r2 [] (fun d hd => h d (by rw [hcs]; simp [hd]))]
        rw [hbody]
        simp [string_mk_data]
      · rw [splitSectionsAux_step c (c2 :: r2) [] true
          (by
            intro r3 hc1 hc2 _
            cases hc2
            exact hdash ⟨hc1, rfl⟩)]
        rw [decide_eq_false (h c (by rw [hcs]; exact List.mem_cons_self c _))]
        rw [splitSectionsAux_no_nl (c2 :: r2) [c]
          (fun d hd => h d (by rw [hcs]; simp [hd]))]
        rw [hbody]
        have hmatch : (match c :: c2 :: r2 with
            | '-' :: '-' :: _ => true
            | _ => false) = false := by
          split
          · next heq =>
            injection heq with e1 erest
            injection erest with e2 _
            exact absurd ⟨e1, e2⟩ hdash
          · rfl
        rw [hmatch]
        simp

theorem buildSection_fold (s t : String)
    (hs : ∀ c ∈ s.data, isLineBreakChar c = false)
    (ht : ∀ c ∈ t.data, isLineBreakChar c = false)
    (hsne : s.data ≠ []) (hsh : headerMatch s = false)
    (hssp : isPySpace (s.data.headD 'x') = false)
    (htne : t.data ≠ []) (htsp : isPySpace (t.data.headD 'x') = true) :
    buildSection (s ++ "\n" ++ t) = .ok [s ++ "\n" ++ stripSpaces t] := by
  have hth : headerMatch t = false := by
    cases hht : headerMatch t with
    | false => rfl
    | true =>
      rw [headerMatch_head t hht] at htsp
      exact absurd htsp (by decide)
  unfold buildSection
  rw [pySplitLines_two s t hs ht htne]
  unfold buildLinesAux
  rw [if_neg (by simp [hsne, hsh])]
  rw [if_neg (by rw [hssp]; exact (by decide))]
  simp only [List.nil_append]
  unfold buildLinesAux
  rw [if_neg (by simp [htne, hth])]
  rw [if_pos htsp]
  simp [buildLinesAux]

theorem buildLinesAux_filter :
    ∀ (ls acc : List String),
    buildLinesAux ls acc =
      buildLinesAux (ls.filter fun l => !(l.data.isEmpty || headerMatch l)) acc := by
  intro ls
  induction ls with
  | nil => intro acc; rfl
  | cons l rest ih =>
    intro acc
    by_cases h1 : (l.data.isEmpty || headerMatch l) = true
    · rw [List.filter_cons_of_neg (by simp [h1])]
      conv_lhs => rw [buildLinesAux]
      rw [if_pos h1]
      exact ih acc
    · rw [List.filter_cons_of_pos (by simp [h1])]
      conv_lhs => rw [buildLinesAux]
      conv_rhs => rw [buildLinesAux]
      rw [if_neg h1, if_neg h1]
      by_cases h2 : isPySpace (l.data.headD 'x') = true
      · rw [if_pos h2, if_pos h2]
        cases acc.getLast? with
        | none => rfl
        | some last => exact ih _
      · rw [if_neg h2, if_neg h2]
        exact ih _

end RTParser

namespace CustomFieldManager

theorem get_id_search_ok (cache : Cache) (name : String) (resp : SearchResp)
    (v : PyVal) (cache' : Cache)
    (h : get_id_search cache name resp = .ok (v, cache'))
    (htr : truthy v = true) :
    dget cache' name = some v := by
  unfold get_id_search at h
  by_cases hc : resp.count ≠ 0
  · rw [if_pos hc] at h
    cases hh : resp.items.head? with
    | none => rw [hh] at h; exact absurd h (by simp)
    | some r =>
      rw [hh] at h
      simp only [Res.ok.injEq, Prod.mk.injEq] at h
      obtain ⟨hv, hcache⟩ := h
      rw [← hcache, ← hv]
      exact dget_dset_self cache name r
  · rw [if_neg hc] at h
    simp only [Res.ok.injEq, Prod.mk.injEq] at h
    obtain ⟨hv, _⟩ := h
    rw [← hv] at htr
    exact absurd htr (by decide)

end CustomFieldManager

namespace RTParser

theorem parse_ok_length (body : String) (l : List Record)
    (h : parse body = .ok l) : l.length = countDelims body + 1 := by
  unfold parse at h
  cases hb : build body with
  | raised e => rw [hb] at h; exact absurd h (by simp)
  | ok sections =>
    rw [hb] at h
    have h1 : l.length = sections.length := mapRes_ok_length decode sections l h
    have h2 : sections.length = (splitSections body).length := by
      unfold build at hb
      exact mapRes_ok_length buildSection (splitSections body) sections hb
    rw [h1, h2, splitSections_length body]

end RTParser

open RTParser CustomFieldManager

/-- C1 (counterexample).  The claim predicts that
`parse "--\nA: 1\n--\nB: 2\n"` returns exactly two Records; the code
returns three, because `re.split` always produces one piece before the
first delimiter, here an empty prologue section that decodes to an empty
Record. -/
theorem parse_two_delimiters_yields_three_records :
    parse "--\nA: 1\n--\nB: 2\n" = .ok [[], [("A", "1")], [("B", "2")]] ∧
    ([[], [("A", "1")], [("B", "2")]] : List Record).length ≠ 2 :=
  ⟨by decide, by decide⟩

/-- C1 (amended).  Whenever `parse` returns without raising, the number of
Records is the number of `--` delimiter matches plus one, whether or not
there is content before the first delimiter; with no such content the
first Record is empty, as the concrete run shows. -/
theorem parse_record_count_eq_delimiter_count_succ :
    (∀ (body : String) (l : List Record), parse body = .ok l →
      l.length = countDelims body + 1) ∧
    parse "--\nA: 1\n--\nB: 2\n" = .ok [[], [("A", "1")], [("B", "2")]] :=
  ⟨parse_ok_length, by decide⟩

/-- C1 (witness). -/
theorem parse_record_count_witness :
    ([[], [("A", "1")], [("B", "2")]] : List Record).length =
      countDelims "--\nA: 1\n--\nB: 2\n" + 1 :=
  parse_record_count_eq_delimiter_count_succ.1 "--\nA: 1\n--\nB: 2\n" _ (by decide)

/-- C2 (code bug).  The claim says the decode step never raises on a
logical line lacking a colon; on the body `"x\n"`, whose only logical line
has no colon and no current key exists yet, the code evaluates
`data_dict[None]` and a `KeyError` escapes `parse`. -/
theorem parse_colonless_first_line_raises :
    parse "x\n" = .raised .keyError := by decide

/-- C3 (counterexample).  The claim says the text after `--` on a delimiter
line is discarded; in the code `re.split` consumes only the two dashes, so
for `"--x: 5\nA: 1\n"` the delimiter-line remainder `x: 5` stays in the
following section and produces the field `x` in the returned Record. -/
theorem delimiter_line_content_not_discarded :
    parse "--x: 5\nA: 1\n" = .ok [[], [("x", "5"), ("A", "1")]] ∧
    dget [("x", "5"), ("A", "1")] "x" = some "5" :=
  ⟨by decide, by decide⟩

/-- C3 (amended).  The split consumes exactly the two dashes of a
delimiter; any remaining content of the delimiter line is not discarded
but becomes the beginning of the following section, and can contribute
fields to that section's Record.  For a body without newlines the split
yields the prologue and the delimiter-line remainder. -/
theorem section_split_consumes_only_dashes :
    (∀ body : String, (∀ c ∈ body.data, c ≠ '\n') →
      splitSections body =
        if startsWithDashes body then ["", ⟨body.data.drop 2⟩] else [body]) ∧
    parse "--x: 5\nA: 1\n" = .ok [[], [("x", "5"), ("A", "1")]] :=
  ⟨splitSections_no_nl, by decide⟩

/-- C3 (witness). -/
theorem section_split_witness : splitSections "--abc" = ["", "abc"] := by
  rw [section_split_consumes_only_dashes.1 "--abc" (by decide)]
  decide

/-- C4 (counterexample).  The claim says a continuation line is appended
with its leading whitespace stripped; the code strips space characters
(both ends, U+0020 only), so a tab-led continuation keeps its tab:
`parse "A: x\n\ty\n"` yields `x\n\ty` for key `A`, not `x\ny`. -/
theorem continuation_tab_not_stripped :
    parse "A: x\n\ty\n" = .ok [[("A", "x\n\ty")]] ∧
    ("x\n\ty" : String) ≠ "x\ny" :=
  ⟨by decide, by decide⟩

/-- C4 (amended).  A continuation line following a logical line is
appended to that line joined by a single newline, with space characters
(U+0020 only, both ends — not tabs or other whitespace) stripped from the
continuation content; `parse "A: hello\n world\n"` yields the Record
mapping `A` to `hello\nworld`. -/
theorem continuation_fold_strips_spaces_only :
    (∀ s t : String, (∀ c ∈ s.data, isLineBreakChar c = false) →
      (∀ c ∈ t.data, isLineBreakChar c = false) →
      s.data ≠ [] → headerMatch s = false → isPySpace (s.data.headD 'x') = false →
      t.data ≠ [] → isPySpace (t.data.headD 'x') = true →
      buildSection (s ++ "\n" ++ t) = .ok [s ++ "\n" ++ stripSpaces t]) ∧
    parse "A: hello\n world\n" = .ok [[("A", "hello\nworld")]] ∧
    parse "A: x\n\ty\n" = .ok [[("A", "x\n\ty")]] :=
  ⟨buildSection_fold, by decide, by decide⟩

/-- C4 (witness). -/
theorem continuation_fold_witness :
    buildSection ("A: hi" ++ "\n" ++ "\tz y ") =
      .ok ["A: hi" ++ "\n" ++ stripSpaces "\tz y "] :=
  continuation_fold_strips_spaces_only.1 "A: hi" "\tz y " (by decide) (by decide)
    (by decide) (by decide) (by decide) (by decide) (by decide)

/-- C5 (confirmed).  For every body in which some section's first
unskipped physical line is a continuation line (first character
whitespace) before any logical line has been collected, `parse` raises an
`IndexError` (from `logic_lines[-1]` on the empty list). -/
theorem continuation_before_logical_line_raises :
    ∀ body : String,
    (∃ s ∈ splitSections body, contBefore (pySplitLines s) = true) →
    parse body = .raised .indexError := by
  intro body hex
  have hb : build body = .raised .indexError := by
    unfold build
    apply mapRes_raised_of_mem buildSection PyEx.indexError
    · intro a e he
      exact buildSection_raised a e he
    · obtain ⟨s, hs, hcont⟩ := hex
      exact ⟨s, hs, .indexError, by unfold buildSection; exact contBefore_raised _ hcont⟩
  unfold parse
  rw [hb]

/-- C5 (witness). -/
theorem continuation_before_logical_line_witness :
    parse " x\n" = .raised .indexError :=
  continuation_before_logical_line_raises " x\n" ⟨" x\n", by decide, by decide⟩

/-- C6 (counterexample).  The claim reads the header pattern as
`<PROTOCOL>/<version> <code><space><reason>` for an arbitrary protocol
token; the compiled regex requires the literal `RT/`, so a status line of
another protocol is not skipped: it becomes a colonless logical line and
`parse` raises a `KeyError` instead of returning `[{A: 1}]`. -/
theorem non_rt_header_line_not_skipped :
    headerMatch "HTTP/1.1 200 Ok" = false ∧
    parse "HTTP/1.1 200 Ok\nA: 1\n" = .raised .keyError :=
  ⟨by decide, by decide⟩

/-- C6 (amended).  Every line matching the `HEADER` pattern — whose
protocol token is the literal `RT` — is skipped during line building
exactly like an empty line, contributing nothing to any section's logical
lines or any Record; concretely `parse "RT/4.4.3 200 Ok\nA: 1\n"` yields
one Record `{A: 1}` with no header-derived key. -/
theorem rt_header_lines_skipped :
    (∀ ls acc : List String,
      buildLinesAux ls acc =
        buildLinesAux (ls.filter fun l => !(l.data.isEmpty || headerMatch l)) acc) ∧
    headerMatch "RT/4.4.3 200 Ok" = true ∧
    parse "RT/4.4.3 200 Ok\nA: 1\n" = .ok [[("A", "1")]] :=
  ⟨buildLinesAux_filter, by decide, by decide⟩

/-- C7 (confirmed).  `parse_status_code` splits the first line of the body
on single spaces and returns the second token parsed as an integer
(`200` for `RT/4.4.3 200 Ok`); with fewer than two tokens (`garbage`), an
empty body, a non-numeric second token, or the empty token produced by a
double space, it returns the failure sentinel (`none`, modelling `False`);
being a total function into `Option Int` it never raises on any input. -/
theorem parse_status_code_spec :
    parse_status_code "RT/4.4.3 200 Ok\nSome: thing\n" = some 200 ∧
    parse_status_code "garbage" = none ∧
    parse_status_code "" = none ∧
    parse_status_code "RT/4.4.3 abc Ok" = none ∧
    parse_status_code "RT/4.4.3  200 Ok" = none ∧
    ∀ body : String, parse_status_code body = none ∨
      ∃ n : Int, parse_status_code body = some n := by
  refine ⟨by decide, by decide, by decide, by decide, by decide, ?_⟩
  intro body
  cases h : parse_status_code body with
  | none => exact Or.inl rfl
  | some n => exact Or.inr ⟨n, rfl⟩

/-- C8 (counterexample).  The claim says any successful (non-`None`)
result is cached forever; the cache-hit test is Python truthiness, so a
falsy id such as `0` is cached but ignored on the next call, which
searches again and overwrites the cache entry with the new result. -/
theorem get_id_falsy_value_recached :
    get_id [] "A" ⟨1, [PyVal.int 0]⟩ = .ok (PyVal.int 0, [("A", PyVal.int 0)]) ∧
    PyVal.int 0 ≠ PyVal.none ∧
    get_id [("A", PyVal.int 0)] "A" ⟨1, [PyVal.int 5]⟩ =
      .ok (PyVal.int 5, [("A", PyVal.int 5)]) ∧
    PyVal.int 5 ≠ PyVal.int 0 :=
  ⟨by decide, by decide, by decide, by decide⟩

/-- C8 (amended).  Once `get_id` has returned a truthy value `v` for a
name (non-`None` and also nonzero or nonempty), every later call for that
name returns `v` from the cache with the cache unchanged, whatever the
outcome of any further search would be — first truthy lookup wins, cached
for the life of the owning instance. -/
theorem get_id_truthy_cached_forever :
    ∀ (cache : Cache) (name : String) (resp : SearchResp) (v : PyVal)
      (cache' : Cache),
    get_id cache name resp = .ok (v, cache') → truthy v = true →
    ∀ resp2 : SearchResp, get_id cache' name resp2 = .ok (v, cache') := by
  intro cache name resp v cache' h htr resp2
  have hmem : dget cache' name = some v := by
    unfold get_id at h
    cases hg : dget cache name with
    | some w =>
      rw [hg] at h
      cases hwc : truthy w with
      | true =>
        simp only [hwc, if_true, Res.ok.injEq, Prod.mk.injEq] at h
        obtain ⟨rfl, rfl⟩ := h
        exact hg
      | false =>
        simp only [hwc, Bool.false_eq_true, if_false] at h
        exact get_id_search_ok cache name resp v cache' h htr
    | none =>
      rw [hg] at h
      exact get_id_search_ok cache name resp v cache' h htr
  unfold get_id
  rw [hmem]
  simp [htr]

/-- C8 (witness). -/
theorem get_id_cache_witness :
    get_id [("A", PyVal.int 7)] "A" ⟨1, [PyVal.int 9]⟩ =
      .ok (PyVal.int 7, [("A", PyVal.int 7)]) :=
  get_id_truthy_cached_forever [] "A" ⟨1, [PyVal.int 7]⟩ (PyVal.int 7)
    [("A", PyVal.int 7)] (by decide) (by decide) ⟨1, [PyVal.int 9]⟩

/-- C9 (confirmed).  Lines beginning with `>>` get no special treatment:
`SYNTAX_COMMENT` is never consulted, so the colonless logical line
`>> Ticket 1 created.` is decoded as a continuation appended to the
current key's value, and raises a `KeyError` when no key has been seen in
its section. -/
theorem double_angle_lines_not_special :
    parse "A: 1\n>> Ticket 1 created.\n" =
      .ok [[("A", "1>> Ticket 1 created.")]] ∧
    parse ">> Ticket 1 created.\n" = .raised .keyError :=
  ⟨by decide, by decide⟩

/-- C10 (counterexample).  The claim says `parse` returns at least one
Record for every input; on a body whose only line is a leading
continuation the code raises an `IndexError` and returns nothing. -/
theorem parse_raises_on_leading_continuation :
    parse " q\n" = .raised .indexError := by decide

/-- C10 (amended).  Whenever `parse` returns without raising, it returns
at least one Record, and `parse ""` returns exactly one Record, which is
empty — the empty-raw-body section count is one. -/
theorem parse_ok_yields_at_least_one_record :
    (∀ (body : String) (l : List Record), parse body = .ok l → 1 ≤ l.length) ∧
    parse "" = .ok [[]] := by
  refine ⟨fun body l h => ?_, by decide⟩
  rw [parse_ok_length body l h]
  omega

/-- C10 (witness). -/
theorem parse_nonempty_witness : 1 ≤ ([[("A", "1")]] : List Record).length :=
  parse_ok_yields_at_least_one_record.1 "A: 1\n" [[("A", "1")]] (by decide)
